import Mathlib

/-!
Verification of the crawl4ai-mcp crawling and synthesis code.

Shallow embedding conventions:
* JavaScript strings are modelled as `List Char` (`Str` below); `toL` converts
  a Lean string literal to this representation.
* The JavaScript regular-expression splits used by `createChunks`
  (`text.split(/\n\s*\n/)` and `paragraph.split(/(?<=[.!?])\s+/)`) are modelled
  by an explicit leftmost, greedy scanner (`splitTextGo`), driven by a fuel
  argument equal to the length of the input, which is always sufficient.
* The browser (`puppeteer`), the URL library (`new URL`) and the Anthropic
  client are external collaborators; they enter the model as function
  parameters (`render`, `parseUrl`, `gen`).  A `none` result of `render`
  models a per-page navigation/render error (the `try/catch` around
  `page.goto`); a `none` result of `parseUrl` models the `new URL` constructor
  throwing.
* The crawl loop (`while (queue.length > 0 && results.length < maxPages)`) is
  modelled by the fuel-indexed `crawlLoop`; the state additionally records the
  trace of navigations performed (`fetched`), and a `crashed` flag modelling
  an exception escaping the loop (an unparseable URL dequeued from the queue).
-/

abbrev Str := List Char

def toL (s : String) : Str := s.data

/-- The character class matched by the JavaScript regular-expression escape
`\s` (and removed by `String.prototype.trim`). -/
def jsWhitespaceChars : Str :=
  ['\t', '\n', '\x0b', '\x0c', '\r', ' ', ' ', ' ',
   ' ', ' ', ' ', ' ', ' ', ' ', ' ',
   ' ', ' ', ' ', ' ', ' ', ' ', ' ',
   ' ', '　', '﻿']

def isWS (c : Char) : Bool := jsWhitespaceChars.contains c

/-- The non-whitespace content of a string: all characters that are not
JavaScript whitespace, in order.  Chunking is lossless up to whitespace
normalization exactly when this is preserved. -/
def nonWS (s : Str) : Str := s.filter (fun c => !isWS c)

/-- Length of the longest prefix of whitespace characters. -/
def wsRunLen : Str → Nat
  | [] => 0
  | c :: r => if isWS c then wsRunLen r + 1 else 0

/-- Last 0-based index of a newline character in a string, if any. -/
def lastIdxNl : Str → Option Nat
  | [] => none
  | c :: r =>
    match lastIdxNl r with
    | some j => some (j + 1)
    | none => if c = '\n' then some 0 else none

/-- Match of the separator regex `/\n\s*\n/` at the head of `s`: the number of
characters consumed by the (greedy, backtracking) match, if it succeeds.  The
match is a `'\n'`, then the longest run of whitespace ending at a later
newline. -/
def paraSep (_prev : Option Char) (s : Str) : Option Nat :=
  match s with
  | c :: rest =>
    if c = '\n' then
      match lastIdxNl (rest.take (wsRunLen rest)) with
      | some j => some (j + 2)
      | none => none
    else none
  | [] => none

/-- Match of the separator regex `/(?<=[.!?])\s+/` at the head of `s`, where
`prev` is the character preceding this position in the original string (the
lookbehind).  Greedy: consumes the whole whitespace run. -/
def sentSep (prev : Option Char) (s : Str) : Option Nat :=
  match prev, s with
  | some p, c :: rest =>
    if (p = '.' || p = '!' || p = '?') && isWS c then some (wsRunLen rest + 1)
    else none
  | _, _ => none

/-- Leftmost-scan splitter implementing `String.prototype.split` for a
separator matcher `sep` (which may consult the preceding character, for
lookbehind).  `fuel` bounds the scan; `fuel = s.length` always suffices since
every step consumes at least one character. -/
def splitTextGo (sep : Option Char → Str → Option Nat) :
    Nat → Option Char → Str → Str → List Str
  | 0, _, acc, s => [acc.reverse ++ s]
  | _ + 1, _, acc, [] => [acc.reverse]
  | fuel + 1, prev, acc, c :: rest =>
    match sep prev (c :: rest) with
    | some (n + 1) =>
      acc.reverse ::
        splitTextGo sep fuel (((c :: rest).take (n + 1)).getLast?) []
          ((c :: rest).drop (n + 1))
    | some 0 => splitTextGo sep fuel (some c) (c :: acc) rest
    | none => splitTextGo sep fuel (some c) (c :: acc) rest

def jsSplit (sep : Option Char → Str → Option Nat) (s : Str) : List Str :=
  splitTextGo sep s.length none [] s

/-- The character-level fallback of `createChunks`: the loop
`for (let i = 0; i < sentence.length; i += maxChunkSize)
   chunks.push(sentence.slice(i, i + maxChunkSize))`.
`fuel = s.length` suffices whenever `0 < m`. -/
def sliceLoop (m : Nat) : Nat → Str → List Str
  | _, [] => []
  | 0, s => [s]
  | fuel + 1, s => s.take m :: sliceLoop m fuel (s.drop m)

/-- The sentence-accumulation loop of `createChunks` (source lines 35–53):
state is (chunks so far, current `sentenceChunk`). -/
def sentLoop (m : Nat) : List Str → List Str → Str → List Str × Str
  | [], chunks, sc => (chunks, sc)
  | s :: ss, chunks, sc =>
    if m < sc.length + s.length then
      let chunks1 := if 0 < sc.length then chunks ++ [sc] else chunks
      if m < s.length then
        sentLoop m ss (chunks1 ++ sliceLoop m s.length s) []
      else
        sentLoop m ss chunks1 s
    else
      sentLoop m ss chunks (sc ++ (if 0 < sc.length then [' '] else []) ++ s)

/-- Splitting one oversized paragraph by sentences (source lines 30–58),
including the final flush of the remaining `sentenceChunk`. -/
def processBigParagraph (m : Nat) (chunks : List Str) (p : Str) : List Str :=
  let sentences := jsSplit sentSep p
  let r := sentLoop m sentences chunks []
  if 0 < r.2.length then r.1 ++ [r.2] else r.1

/-- The paragraph-accumulation loop of `createChunks` (source lines 20–67):
state is (chunks so far, current `currentChunk`). -/
def paraLoop (m : Nat) : List Str → List Str → Str → List Str × Str
  | [], chunks, cur => (chunks, cur)
  | p :: ps, chunks, cur =>
    if m < cur.length + p.length + 2 then
      let chunks1 := if 0 < cur.length then chunks ++ [cur] else chunks
      if m < p.length then
        paraLoop m ps (processBigParagraph m chunks1 p) []
      else
        paraLoop m ps chunks1 p
    else
      paraLoop m ps chunks (cur ++ (if 0 < cur.length then ['\n', '\n'] else []) ++ p)

/-- `createChunks(text, maxChunkSize)` from `src/utils.js` (lines 7–75). -/
def createChunks (text : Str) (maxChunkSize : Nat) : List Str :=
  if text.length ≤ maxChunkSize then [text]
  else
    let paragraphs := jsSplit paraSep text
    let r := paraLoop maxChunkSize paragraphs [] []
    if 0 < r.2.length then r.1 ++ [r.2] else r.1

/-! ## Robots.txt parsing and filtering (crawler source lines 444–522) -/

/-- JavaScript `s.trim()`. -/
def trimStr (s : Str) : Str :=
  ((s.dropWhile (fun c => isWS c)).reverse.dropWhile (fun c => isWS c)).reverse

/-- JavaScript `s.toLowerCase()` restricted to the ASCII case mapping (the only
case that arises for robots.txt directive keywords). -/
def toLowerStr (s : Str) : Str := s.map Char.toLower

/-- JavaScript `s.startsWith(p)`. -/
def strStartsWith : Str → Str → Bool
  | _, [] => true
  | [], _ :: _ => false
  | c :: s, d :: p => c == d && strStartsWith s p

/-- JavaScript `s.split(c)` for a one-character separator. -/
def splitOnCharGo (sepc : Char) : Str → Str → List Str
  | acc, [] => [acc.reverse]
  | acc, c :: r =>
    if c = sepc then acc.reverse :: splitOnCharGo sepc [] r
    else splitOnCharGo sepc (c :: acc) r

def splitOnChar (sepc : Char) (s : Str) : List Str := splitOnCharGo sepc [] s

/-- JavaScript `line.split(':')[1]` (the second field; `[]` if absent, which
is unreachable on the lines this is applied to). -/
def splitColonSecond (s : Str) : Str := ((splitOnChar ':' s).drop 1).headD []

/-- The parsed robots rules: per-user-agent ordered lists of path prefixes,
as built by `parseRobotsTxt` (a JavaScript object of arrays, modelled as an
insertion-ordered association list). -/
structure RobotsRules where
  allow : List (Str × List Str)
  disallow : List (Str × List Str)
deriving DecidableEq

def emptyRules : RobotsRules := ⟨[], []⟩

/-- Accessing `m[k] || []` on the modelled JavaScript object. -/
def agentRules (m : List (Str × List Str)) (k : Str) : List Str :=
  (List.lookup k m).getD []

/-- `if (!m[k]) m[k] = []` on the modelled JavaScript object. -/
def ensureKey (m : List (Str × List Str)) (k : Str) : List (Str × List Str) :=
  if (List.lookup k m).isSome then m else m ++ [(k, [])]

/-- `m[k].push(v)` (creating `m[k] = []` first if needed, as the source does
just before every push). -/
def pushRule (k : Str) (v : Str) : List (Str × List Str) → List (Str × List Str)
  | [] => [(k, [v])]
  | (k0, vs) :: rest =>
    if k0 == k then (k0, vs ++ [v]) :: rest else (k0, vs) :: pushRule k v rest

/-- The line loop of `parseRobotsTxt` (source lines 450–484). -/
def parseRobotsLines : List Str → Str → RobotsRules → RobotsRules
  | [], _, rules => rules
  | line :: rest, currentUserAgent, rules =>
    let t := trimStr line
    if strStartsWith t (toL "#") || t = [] then
      parseRobotsLines rest currentUserAgent rules
    else if strStartsWith (toLowerStr t) (toL "user-agent:") then
      let ua := trimStr (splitColonSecond t)
      parseRobotsLines rest ua
        ⟨ensureKey rules.allow ua, ensureKey rules.disallow ua⟩
    else if strStartsWith (toLowerStr t) (toL "allow:") then
      let path := trimStr (splitColonSecond t)
      parseRobotsLines rest currentUserAgent
        ⟨pushRule currentUserAgent path rules.allow, rules.disallow⟩
    else if strStartsWith (toLowerStr t) (toL "disallow:") then
      let path := trimStr (splitColonSecond t)
      parseRobotsLines rest currentUserAgent
        ⟨rules.allow, pushRule currentUserAgent path rules.disallow⟩
    else
      parseRobotsLines rest currentUserAgent rules

/-- `parseRobotsTxt(robotsTxt)` from the crawler source (lines 444–487). -/
def parseRobotsTxt (robotsTxt : Str) : RobotsRules :=
  parseRobotsLines (splitOnChar '\n' robotsTxt) (toL "*") ⟨[], []⟩

/-- The result of `new URL(u)`: the components the crawler consults. -/
structure UrlObj where
  protocol : Str
  hostname : Str
  pathname : Str
deriving DecidableEq

/-- The origin of a parsed URL: scheme plus host. -/
def originOf (o : UrlObj) : Str := o.protocol ++ toL "//" ++ o.hostname

/-- `isDisallowed(url, rules)` from the crawler source (lines 495–522).  The
URL library is the external parameter `parseUrl`; a parse failure is caught
and the URL is allowed. -/
def isDisallowed (parseUrl : Str → Option UrlObj) (url : Str)
    (rules : RobotsRules) : Bool :=
  match parseUrl url with
  | none => false
  | some urlObj =>
    let path := urlObj.pathname
    let disallowRules := agentRules rules.disallow (toL "*")
    let allowRules := agentRules rules.allow (toL "*")
    if allowRules.any (fun rule => strStartsWith path rule) then false
    else if disallowRules.any (fun rule => strStartsWith path rule) then true
    else false

/-! ## Crawl traversal (crawler source lines 276–437) -/

/-- What the page renderer (puppeteer + `extractLinks`) produces for one
successfully rendered URL. -/
structure RenderResult where
  title : Str
  description : Str
  content : Str
  html : Str
  links : List Str
deriving DecidableEq

/-- One element of the crawl output (the `crawledAt` wall-clock timestamp of
the source is outside the model). -/
structure PageRecord where
  url : Str
  title : Str
  description : Str
  content : Str
  html : Str
deriving DecidableEq

/-- The crawl loop state: `visited`, the frontier `queue` of (url, depth)
pairs, the accumulated `results`, the trace `fetched` of navigations
performed, and whether an exception escaped the loop. -/
structure CrawlState where
  visited : List Str
  queue : List (Str × Nat)
  results : List PageRecord
  fetched : List Str
  crashed : Bool
deriving DecidableEq

def initState (startUrl : Str) : CrawlState :=
  ⟨[], [(startUrl, 0)], [], [], false⟩

/-- One iteration body of the crawl loop (source lines 329–407), applied to a
dequeued entry `(url, currentDepth)` with remaining queue `rest`. -/
def crawlStep (render : Str → Option RenderResult)
    (parseUrl : Str → Option UrlObj) (rules : RobotsRules)
    (respectRobotsTxt : Bool) (baseHostname : Str) (depth : Nat)
    (st : CrawlState) (url : Str) (currentDepth : Nat)
    (rest : List (Str × Nat)) : CrawlState :=
  if url ∈ st.visited then { st with queue := rest }
  else if respectRobotsTxt && isDisallowed parseUrl url rules then
    { st with queue := rest }
  else
    match parseUrl url with
    | none => { st with queue := rest, crashed := true }
    | some urlObj =>
      if urlObj.hostname ≠ baseHostname then { st with queue := rest }
      else
        let visited1 := st.visited ++ [url]
        let fetched1 := st.fetched ++ [url]
        match render url with
        | none =>
          { st with visited := visited1, fetched := fetched1, queue := rest }
        | some r =>
          let record : PageRecord := ⟨url, r.title, r.description, r.content, r.html⟩
          let newLinks :=
            if currentDepth < depth then
              r.links.filter (fun link => !visited1.contains link)
            else []
          { st with
            visited := visited1
            fetched := fetched1
            results := st.results ++ [record]
            queue := rest ++ newLinks.map (fun link => (link, currentDepth + 1)) }

/-- The crawl loop `while (queue.length > 0 && results.length < maxPages)`,
fuel-indexed.  A `crashed` state stops the loop (the exception propagates). -/
def crawlLoop (render : Str → Option RenderResult)
    (parseUrl : Str → Option UrlObj) (rules : RobotsRules)
    (respectRobotsTxt : Bool) (baseHostname : Str) (depth maxPages : Nat) :
    Nat → CrawlState → CrawlState
  | 0, st => st
  | fuel + 1, st =>
    if st.crashed then st
    else
      match st.queue with
      | [] => st
      | (url, currentDepth) :: rest =>
        if st.results.length < maxPages then
          crawlLoop render parseUrl rules respectRobotsTxt baseHostname depth
            maxPages fuel
            (crawlStep render parseUrl rules respectRobotsTxt baseHostname
              depth st url currentDepth rest)
        else st

/-- `crawlWebsite(startUrl, options)` (source lines 276–415): validate the
seed URL, then drain the frontier from `{url: startUrl, depth: 0}`.  The
robots rules (parsed from a fetched robots.txt, or empty on fetch failure or
when `respectRobotsTxt` is off) are passed in, the fetch itself being
external.  `none` models the `Invalid URL` exception. -/
def crawlWebsite (render : Str → Option RenderResult)
    (parseUrl : Str → Option UrlObj) (rules : RobotsRules)
    (respectRobotsTxt : Bool) (depth maxPages fuel : Nat)
    (startUrl : Str) : Option CrawlState :=
  match parseUrl startUrl with
  | none => none
  | some baseUrl =>
    some (crawlLoop render parseUrl rules respectRobotsTxt baseUrl.hostname
      depth maxPages fuel (initState startUrl))

/-! ## AI synthesis pipeline (processor source lines 25–166) -/

/-- The per-page block and page separator of the combined document
(source lines 46–48). -/
def pageBlock (page : PageRecord) : Str :=
  toL "## Page: " ++ page.title ++ toL " (" ++ page.url ++ toL ")\n\n" ++
    page.content ++ toL "\n\n"

def combinedText (crawlResults : List PageRecord) : Str :=
  List.intercalate (toL "\n---\n\n") (crawlResults.map pageBlock)

/-- The task-specific prompt (source lines 59–106).  The dispatch is on the
lowercased task name; the generic fallback interpolates the task verbatim. -/
def mkPrompt (task : Str) (chunk : Str) : Str :=
  let lowered := toLowerStr task
  if lowered = toL "summarize" then
    toL "Please provide a comprehensive summary of the following web content. Focus on the main points, key information, and overall themes:\n\n"
      ++ chunk ++
      toL "\n\nProvide a well-structured summary with key points, important details, and main conclusions."
  else if lowered = toL "extract" then
    toL "Please extract all factual information from the following web content:\n\n"
      ++ chunk ++
      toL "\n\nFormat the information as a list of verified facts found in the content."
  else if lowered = toL "analyze" then
    toL "Please analyze the following web content:\n\n" ++ chunk ++
      toL "\n\nProvide:\n1. Main topic overview\n2. Key arguments or claims made\n3. Evidence presented\n4. Logical fallacies or biases (if any)\n5. Quality assessment of the information\n6. Connections between concepts\n7. Areas where information might be missing"
  else if lowered = toL "questions" then
    toL "Based on the following web content:\n\n" ++ chunk ++
      toL "\n\nGenerate 10 important questions that someone might have after reading this content, along with detailed answers based solely on the information provided."
  else
    toL "Please " ++ task ++ toL " the following web content:\n\n" ++ chunk

/-- The inline placeholder recorded for a failed per-chunk generation call
(source line 122): `[Error processing chunk ${i+1}: ${error.message}]`. -/
def chunkErrorPlaceholder (n : Nat) (msg : Str) : Str :=
  toL "[Error processing chunk " ++ (Nat.repr n).data ++ toL ": " ++ msg ++ toL "]"

/-- The per-chunk generation loop (source lines 56–124), starting at 0-based
index `i`.  The generation capability `gen` returns the generated text or the
error message of the thrown exception. -/
def processChunksGo (gen : Str → Except Str Str) (task : Str) :
    Nat → List Str → List Str
  | _, [] => []
  | i, chunk :: rest =>
    (match gen (mkPrompt task chunk) with
     | .ok t => t
     | .error msg => chunkErrorPlaceholder (i + 1) msg) ::
      processChunksGo gen task (i + 1) rest

/-- The combining prompt (source lines 133–137). -/
def combiningPrompt (joined : Str) : Str :=
  toL "You\x27ve analyzed multiple chunks of web content and provided separate analyses. Please combine and synthesize these separate analyses into a single coherent response:\n\n"
    ++ joined ++
    toL "\n\nProvide a unified, well-structured response that combines all the information without repetition."

/-- Per-chunk processing plus the final combining step (source lines 54–153):
join with blank lines; when more than one chunk was processed, one additional
combining call, falling back to the concatenation if it fails. -/
def synthesizeChunks (gen : Str → Except Str Str) (task : Str)
    (chunks : List Str) : Str :=
  let processedChunks := processChunksGo gen task 0 chunks
  let joined := List.intercalate (toL "\n\n") processedChunks
  if 1 < processedChunks.length then
    match gen (combiningPrompt joined) with
    | .ok t => t
    | .error _ => joined
  else joined

/-- The result of `processText`: either the short-circuit object
`{error, originalResults}` returned when no Anthropic client is configured,
or the normal result object (the `processedAt` timestamp of `meta` is outside
the model). -/
inductive ProcessResult where
  | skipped (errorMsg : Str) (originalResults : List PageRecord)
  | completed (task : Str) (result : Str) (model : Str)
      (pagesProcessed chunksProcessed : Nat)
      (originalResults : List PageRecord)
deriving DecidableEq

/-- `processText(crawlResults, options)` from the processor source
(lines 25–166).  The Anthropic client is the external parameter `gen`;
`none` models an unconfigured `ANTHROPIC_API_KEY`. -/
def processText (gen : Option (Str → Except Str Str)) (task model : Str)
    (crawlResults : List PageRecord) : ProcessResult :=
  match gen with
  | none => .skipped (toL "Anthropic API key not configured") crawlResults
  | some g =>
    let combined := combinedText crawlResults
    let chunks := createChunks combined 100000
    let finalResult := synthesizeChunks g task chunks
    .completed task finalResult model crawlResults.length chunks.length crawlResults

/-! ## Concrete instances used to exercise the model

Each crawl instance fixes a synthetic site: a `parseUrl` collaborator (the URL
library restricted to the URLs occurring in the instance) and a `render`
collaborator (the page renderer, listing each page's outbound links). -/

/-- Scheme-mismatch instance: the seed is `https`, one discovered link is
`http` on the same host. -/
def seedE : Str := toL "https://e.com/"

def httpE : Str := toL "http://e.com/x"

def puE : Str → Option UrlObj := fun u =>
  if u = seedE then some ⟨toL "https:", toL "e.com", toL "/"⟩
  else if u = httpE then some ⟨toL "http:", toL "e.com", toL "/x"⟩
  else none

def renderE : Str → Option RenderResult := fun u =>
  if u = seedE then some ⟨[], [], [], [], [httpE]⟩
  else if u = httpE then some ⟨[], [], [], [], []⟩
  else none

def finalE : CrawlState :=
  crawlLoop renderE puE emptyRules true (toL "e.com") 1 100 5 (initState seedE)

/-- Single-page instance (used to instantiate hypotheses of the host
invariant). -/
def seedW : Str := toL "https://w.io/"

def puW : Str → Option UrlObj := fun u =>
  if u = seedW then some ⟨toL "https:", toL "w.io", toL "/"⟩ else none

def renderW : Str → Option RenderResult := fun u =>
  if u = seedW then some ⟨[], [], [], [], []⟩ else none

def finalW : CrawlState :=
  crawlLoop renderW puW emptyRules true (toL "w.io") 1 100 3 (initState seedW)

/-- Three-link-deep chain instance: seed → child → grandchild → greatgrand,
crawled with `depth = 1`. -/
def chainSeed : Str := toL "https://c.org/"

def chainChild : Str := toL "https://c.org/a"

def chainGrandchild : Str := toL "https://c.org/b"

def chainGreatgrand : Str := toL "https://c.org/c"

def puChain : Str → Option UrlObj := fun u =>
  if u = chainSeed || u = chainChild || u = chainGrandchild || u = chainGreatgrand
  then some ⟨toL "https:", toL "c.org", toL "/"⟩ else none

def renderChain : Str → Option RenderResult := fun u =>
  if u = chainSeed then some ⟨[], [], [], [], [chainChild]⟩
  else if u = chainChild then some ⟨[], [], [], [], [chainGrandchild]⟩
  else if u = chainGrandchild then some ⟨[], [], [], [], [chainGreatgrand]⟩
  else if u = chainGreatgrand then some ⟨[], [], [], [], []⟩
  else none

def finalChain : CrawlState :=
  crawlLoop renderChain puChain emptyRules true (toL "c.org") 1 100 10
    (initState chainSeed)

/-- Diamond instance: the same page is discoverable through two different
parents. -/
def dSeed : Str := toL "https://d.net/"

def dA : Str := toL "https://d.net/a"

def dB : Str := toL "https://d.net/b"

def dD : Str := toL "https://d.net/dd"

def puD : Str → Option UrlObj := fun u =>
  if u = dSeed || u = dA || u = dB || u = dD
  then some ⟨toL "https:", toL "d.net", toL "/"⟩ else none

def renderD : Str → Option RenderResult := fun u =>
  if u = dSeed then some ⟨[], [], [], [], [dA, dB]⟩
  else if u = dA then some ⟨[], [], [], [], [dD]⟩
  else if u = dB then some ⟨[], [], [], [], [dD]⟩
  else if u = dD then some ⟨[], [], [], [], []⟩
  else none

def finalD : CrawlState :=
  crawlLoop renderD puD emptyRules true (toL "d.net") 2 100 10 (initState dSeed)

/-- Fifty-page instance: a seed linking to 49 children, crawled with
`maxPages = 5`. -/
def bigSeed : Str := toL "https://s.com/"

def bigChild (i : Nat) : Str := toL "https://s.com/p" ++ (Nat.repr i).data

def bigChildren : List Str := (List.range 49).map bigChild

def puBig : Str → Option UrlObj := fun u =>
  if u = bigSeed || bigChildren.contains u
  then some ⟨toL "https:", toL "s.com", toL "/"⟩ else none

def renderBig : Str → Option RenderResult := fun u =>
  if u = bigSeed then some ⟨[], [], [], [], bigChildren⟩
  else if bigChildren.contains u then some ⟨[], [], [], [], []⟩
  else none

def finalBig : CrawlState :=
  crawlLoop renderBig puBig emptyRules true (toL "s.com") 1 5 10 (initState bigSeed)

/-- Robots instance for the `/private` rule. -/
def sitePu : Str → Option UrlObj := fun u =>
  if u = toL "https://site/private/page" then
    some ⟨toL "https:", toL "site", toL "/private/page"⟩
  else if u = toL "https://site/public/page" then
    some ⟨toL "https:", toL "site", toL "/public/page"⟩
  else none

def privateRules : RobotsRules :=
  parseRobotsTxt (toL "User-agent: *\nDisallow: /private")

/-- Robots instance with an empty `Disallow:` path under the wildcard agent. -/
def emptyDisallowRules : RobotsRules :=
  parseRobotsTxt (toL "User-agent: *\nDisallow:")

/-- Synthesis instance: three chunks, whose second generation call fails.  The
generation capability echoes every other prompt back. -/
def taskEcho : Str := toL "echo"

def chunkA : Str := toL "A."

def chunkB : Str := toL "B."

def chunkC : Str := toL "C."

def genFailB : Str → Except Str Str := fun p =>
  if p = mkPrompt taskEcho chunkB then .error (toL "boom") else .ok p

/-! ## Theorems -/

set_option maxRecDepth 10000

/-- Case analysis on one crawl-loop iteration body: the dequeued entry is
skipped, crashes URL parsing, fails to render, or renders (appending a record
and, within depth budget, new links). -/
theorem crawlStep_cases (render : Str → Option RenderResult)
    (pu : Str → Option UrlObj) (rules : RobotsRules) (rb : Bool) (host : Str)
    (d : Nat) (st : CrawlState) (url : Str) (cd : Nat)
    (rest : List (Str × Nat)) :
    crawlStep render pu rules rb host d st url cd rest = { st with queue := rest }
    ∨ crawlStep render pu rules rb host d st url cd rest
        = { st with queue := rest, crashed := true }
    ∨ (url ∉ st.visited ∧ ∃ o, pu url = some o ∧ o.hostname = host ∧
        (crawlStep render pu rules rb host d st url cd rest
            = { st with
                visited := st.visited ++ [url]
                fetched := st.fetched ++ [url]
                queue := rest }
         ∨ ∃ r : RenderResult, render url = some r ∧
            crawlStep render pu rules rb host d st url cd rest
              = { st with
                  visited := st.visited ++ [url]
                  fetched := st.fetched ++ [url]
                  results := st.results ++ [⟨url, r.title, r.description, r.content, r.html⟩]
                  queue := rest ++ (if cd < d then
                      r.links.filter (fun link => !(st.visited ++ [url]).contains link)
                    else []).map (fun link => (link, cd + 1)) })) := by
  by_cases h1 : url ∈ st.visited
  · left; simp [crawlStep, h1]
  · by_cases h2 : (rb && isDisallowed pu url rules) = true
    · left; simp [crawlStep, h1, h2]
    · cases hpu : pu url with
      | none => right; left; simp [crawlStep, h1, h2, hpu]
      | some o =>
        by_cases h3 : o.hostname = host
        · cases hr : render url with
          | none =>
            right; right
            refine ⟨h1, o, rfl, h3, Or.inl ?_⟩
            simp [crawlStep, h1, h2, hpu, hr, h3]
          | some r =>
            right; right
            refine ⟨h1, o, rfl, h3, Or.inr ⟨r, rfl, ?_⟩⟩
            simp [crawlStep, h1, h2, hpu, hr, h3]
        · left; simp [crawlStep, h1, h2, hpu, h3]

/-- Preservation of an invariant through the crawl loop. -/
theorem crawlLoop_inv (render : Str → Option RenderResult)
    (pu : Str → Option UrlObj) (rules : RobotsRules) (rb : Bool) (host : Str)
    (d mp : Nat) (P : CrawlState → Prop)
    (hstep : ∀ st url cd rest, st.queue = (url, cd) :: rest →
      st.results.length < mp → P st →
      P (crawlStep render pu rules rb host d st url cd rest)) :
    ∀ fuel st, P st → P (crawlLoop render pu rules rb host d mp fuel st) := by
  intro fuel
  induction fuel with
  | zero => intro st h; simpa [crawlLoop] using h
  | succ n ih =>
    intro st h
    simp only [crawlLoop]
    by_cases hc : st.crashed
    · simp [hc, h]
    · simp only [hc, if_false, Bool.false_eq_true]
      cases hq : st.queue with
      | nil => exact h
      | cons e rest =>
        obtain ⟨url, cd⟩ := e
        by_cases hl : st.results.length < mp
        · simp only [hl, if_true]
          exact ih _ (hstep st url cd rest hq hl h)
        · simp [hl, h]

/-- The page-record count never exceeds the ceiling. -/
theorem crawlLoop_results_le (render : Str → Option RenderResult)
    (pu : Str → Option UrlObj) (rules : RobotsRules) (rb : Bool) (host : Str)
    (d mp : Nat) (fuel : Nat) (st : CrawlState)
    (h : st.results.length ≤ mp) :
    (crawlLoop render pu rules rb host d mp fuel st).results.length ≤ mp := by
  refine crawlLoop_inv render pu rules rb host d mp
    (fun s => s.results.length ≤ mp) ?_ fuel st h
  intro s url cd rest _ hlen _
  rcases crawlStep_cases render pu rules rb host d s url cd rest with
    he | he | ⟨_, o, _, _, he | ⟨r, _, he⟩⟩ <;> rw [he] <;> simp <;> omega

/-- Every frontier entry ever present has depth at most `d`: entries are only
created at `cd + 1` from an entry of depth `cd < d`. -/
theorem crawlLoop_queue_depth (render : Str → Option RenderResult)
    (pu : Str → Option UrlObj) (rules : RobotsRules) (rb : Bool) (host : Str)
    (d mp : Nat) (fuel : Nat) (st : CrawlState)
    (h : ∀ e ∈ st.queue, e.2 ≤ d) :
    ∀ e ∈ (crawlLoop render pu rules rb host d mp fuel st).queue, e.2 ≤ d := by
  refine crawlLoop_inv render pu rules rb host d mp
    (fun s => ∀ e ∈ s.queue, e.2 ≤ d) ?_ fuel st h
  intro s url cd rest hq _ hP
  have hrest : ∀ e ∈ rest, e.2 ≤ d := fun e he =>
    hP e (hq ▸ List.mem_cons_of_mem _ he)
  rcases crawlStep_cases render pu rules rb host d s url cd rest with
    he | he | ⟨_, o, _, _, he | ⟨r, _, he⟩⟩ <;> rw [he]
  · exact hrest
  · exact hrest
  · exact hrest
  · intro e hemem
    simp only [List.mem_append] at hemem
    rcases hemem with hemem | hemem
    · exact hrest e hemem
    · rcases List.mem_map.mp hemem with ⟨l, hl, rfl⟩
      by_cases hcd : cd < d
      · simpa using hcd
      · simp [hcd] at hl

/-- Fetches happen at most once per URL: the fetch trace and the visited set
stay duplicate-free and the trace stays inside the visited set. -/
theorem crawlLoop_fetched_nodup (render : Str → Option RenderResult)
    (pu : Str → Option UrlObj) (rules : RobotsRules) (rb : Bool) (host : Str)
    (d mp : Nat) (fuel : Nat) (st : CrawlState)
    (h : st.fetched.Nodup ∧ st.visited.Nodup ∧ ∀ u ∈ st.fetched, u ∈ st.visited) :
    (crawlLoop render pu rules rb host d mp fuel st).fetched.Nodup
    ∧ (crawlLoop render pu rules rb host d mp fuel st).visited.Nodup
    ∧ ∀ u ∈ (crawlLoop render pu rules rb host d mp fuel st).fetched,
        u ∈ (crawlLoop render pu rules rb host d mp fuel st).visited := by
  refine crawlLoop_inv render pu rules rb host d mp
    (fun s => s.fetched.Nodup ∧ s.visited.Nodup ∧ ∀ u ∈ s.fetched, u ∈ s.visited)
    ?_ fuel st h
  intro s url cd rest _ _ hP
  obtain ⟨hf, hv, hs⟩ := hP
  rcases crawlStep_cases render pu rules rb host d s url cd rest with
    he | he | ⟨hnv, o, _, _, he | ⟨r, _, he⟩⟩ <;> rw [he]
  · exact ⟨hf, hv, hs⟩
  · exact ⟨hf, hv, hs⟩
  all_goals {
    have hnf : url ∉ s.fetched := fun hmem => hnv (hs url hmem)
    refine ⟨?_, ?_, ?_⟩
    · simpa [List.nodup_append] using ⟨hf, hnf⟩
    · simpa [List.nodup_append] using ⟨hv, hnv⟩
    · intro u hu
      simp only [List.mem_append, List.mem_singleton] at hu ⊢
      rcases hu with hu | hu
      · exact Or.inl (hs u hu)
      · exact Or.inr hu }

/-- Every fetched URL parses, with hostname equal to the base hostname the
loop was started with. -/
theorem crawlLoop_fetched_host (render : Str → Option RenderResult)
    (pu : Str → Option UrlObj) (rules : RobotsRules) (rb : Bool) (host : Str)
    (d mp : Nat) (fuel : Nat) (st : CrawlState)
    (h : ∀ u ∈ st.fetched, ∃ o, pu u = some o ∧ o.hostname = host) :
    ∀ u ∈ (crawlLoop render pu rules rb host d mp fuel st).fetched,
      ∃ o, pu u = some o ∧ o.hostname = host := by
  refine crawlLoop_inv render pu rules rb host d mp
    (fun s => ∀ u ∈ s.fetched, ∃ o, pu u = some o ∧ o.hostname = host) ?_ fuel st h
  intro s url cd rest _ _ hP
  rcases crawlStep_cases render pu rules rb host d s url cd rest with
    he | he | ⟨_, o, ho, hhost, he | ⟨r, _, he⟩⟩ <;> rw [he]
  · exact hP
  · exact hP
  all_goals {
    intro u hu
    simp only [List.mem_append, List.mem_singleton] at hu
    rcases hu with hu | rfl
    · exact hP u hu
    · exact ⟨o, ho, hhost⟩ }

/-- C1.  The claim "every element of createChunks(T, M) has length at most M"
fails on the code: for `T = "abc. de."` and `M = 7` the sentence accumulator
joins `"abc."` and `"de."` with a space without counting that space against
the limit, producing the single chunk `"abc. de."` of length 8 > 7. -/
theorem createChunks_oversize_chunk :
    createChunks (toL "abc. de.") 7 = [toL "abc. de."]
    ∧ (toL "abc. de.").length = 8 := by
  constructor
  · decide
  · decide

/-- C2 counterexample.  The claim "a URL whose origin (scheme plus host)
differs from the seed's origin is never fetched" is false: from the seed
`https://e.com/`, the crawl fetches the discovered link `http://e.com/x`,
whose origin differs from the seed's (`http:` vs `https:`), because the code
compares hostnames only. -/
theorem crawl_fetches_cross_origin_url :
    crawlWebsite renderE puE emptyRules true 1 100 5 seedE = some finalE
    ∧ httpE ∈ finalE.fetched
    ∧ (puE httpE).map originOf ≠ (puE seedE).map originOf := by
  refine ⟨by decide, by decide, by decide⟩

/-- C2 (amended).  For every crawl run, a URL whose host differs from the
seed URL's host is never fetched: every fetched URL parses with hostname
equal to the seed's hostname.  (The scheme is not compared, so same-host
URLs of a different origin may be fetched.) -/
theorem crawl_fetch_same_host (render : Str → Option RenderResult)
    (pu : Str → Option UrlObj) (rules : RobotsRules) (rb : Bool)
    (d mp fuel : Nat) (seed : Str) (final : CrawlState)
    (hrun : crawlWebsite render pu rules rb d mp fuel seed = some final) :
    ∀ u ∈ final.fetched,
      ∃ o b, pu u = some o ∧ pu seed = some b ∧ o.hostname = b.hostname := by
  intro u hu
  unfold crawlWebsite at hrun
  cases hb : pu seed with
  | none => rw [hb] at hrun; cases hrun
  | some b =>
    rw [hb] at hrun
    obtain rfl : crawlLoop render pu rules rb b.hostname d mp fuel
        (initState seed) = final := by
      injection hrun
    obtain ⟨o, ho, hhost⟩ :=
      crawlLoop_fetched_host render pu rules rb b.hostname d mp fuel
        (initState seed) (by simp [initState]) u hu
    exact ⟨o, b, ho, rfl, hhost⟩

/-- C2 witness: the single-page instance, whose one fetched URL is the seed
itself. -/
theorem crawl_fetch_same_host_witness :
    ∃ o b, puW seedW = some o ∧ puW seedW = some b ∧ o.hostname = b.hostname :=
  crawl_fetch_same_host renderW puW emptyRules true 1 100 3 seedW finalW
    (by decide) seedW (by decide)

/-- C5.  Every frontier entry of every crawl run has depth at most the
configured maximum depth `d` (links are enqueued at `cd + 1` only from pages
dequeued at depth `cd < d`), so no entry of depth greater than `d` is ever
dequeued; and on the three-link-deep chain crawled with `depth = 1`, exactly
the seed and its direct link are fetched — never the grandchild. -/
theorem crawl_depth_invariant (render : Str → Option RenderResult)
    (pu : Str → Option UrlObj) (rules : RobotsRules) (rb : Bool) (host : Str)
    (d mp fuel : Nat) (seed : Str) :
    (∀ e ∈ (crawlLoop render pu rules rb host d mp fuel (initState seed)).queue,
        e.2 ≤ d)
    ∧ finalChain.fetched = [chainSeed, chainChild]
    ∧ chainGrandchild ∉ finalChain.fetched := by
  refine ⟨?_, by decide, by decide⟩
  exact crawlLoop_queue_depth render pu rules rb host d mp fuel (initState seed)
    (by simp [initState])

/-- C5 witness: on the chain instance after one loop iteration the frontier
holds the direct link at depth 1 ≤ 1. -/
theorem crawl_depth_invariant_witness : (chainChild, 1).2 ≤ 1 :=
  (crawl_depth_invariant renderChain puChain emptyRules true (toL "c.org")
      1 100 1 chainSeed).1 (chainChild, 1) (by decide)

/-- C6.  The page-record sequence of every crawl run has length at most the
configured `maxPages`; and on the fifty-page instance (a seed plus 49
discoverable in-scope children) crawled with `maxPages = 5`, exactly 5 page
records are returned. -/
theorem crawl_maxPages_ceiling (render : Str → Option RenderResult)
    (pu : Str → Option UrlObj) (rules : RobotsRules) (rb : Bool) (host : Str)
    (d mp fuel : Nat) (seed : Str) :
    (crawlLoop render pu rules rb host d mp fuel (initState seed)).results.length ≤ mp
    ∧ bigChildren.length = 49
    ∧ finalBig.results.length = 5 := by
  refine ⟨?_, by decide, by decide⟩
  exact crawlLoop_results_le render pu rules rb host d mp fuel (initState seed)
    (by simp [initState])

/-- C7.  In every crawl run each URL is fetched at most once: the fetch trace
is duplicate-free, the visited set is duplicate-free, and every fetched URL
is in the visited set (it is added before its fetch).  On the diamond
instance the doubly-discovered page sits twice in the frontier and is fetched
exactly once. -/
theorem crawl_fetch_at_most_once (render : Str → Option RenderResult)
    (pu : Str → Option UrlObj) (rules : RobotsRules) (rb : Bool) (host : Str)
    (d mp fuel : Nat) (seed : Str) :
    ((crawlLoop render pu rules rb host d mp fuel (initState seed)).fetched.Nodup
      ∧ (crawlLoop render pu rules rb host d mp fuel (initState seed)).visited.Nodup
      ∧ ∀ u ∈ (crawlLoop render pu rules rb host d mp fuel (initState seed)).fetched,
          u ∈ (crawlLoop render pu rules rb host d mp fuel (initState seed)).visited)
    ∧ (crawlLoop renderD puD emptyRules true (toL "d.net") 2 100 3
        (initState dSeed)).queue = [(dD, 2), (dD, 2)]
    ∧ finalD.fetched.count dD = 1 := by
  refine ⟨?_, by decide, by decide⟩
  exact crawlLoop_fetched_nodup render pu rules rb host d mp fuel (initState seed)
    (by simp [initState])

/-- C7 witness: on the diamond instance, the fetched seed is in the visited
set. -/
theorem crawl_fetch_at_most_once_witness : dSeed ∈ finalD.visited :=
  (crawl_fetch_at_most_once renderD puD emptyRules true (toL "d.net")
      2 100 10 dSeed).1.2.2 dSeed (by decide)

/-- C9.  When no generation client is configured, `processText` returns (not
throws) the explicit skipped result, carrying the original page records
unchanged; the `skipped` constructor is distinct from the normal `completed`
result shape. -/
theorem processText_skipped (task model : Str) (crawlResults : List PageRecord) :
    processText none task model crawlResults
      = .skipped (toL "Anthropic API key not configured") crawlResults := rfl

/-- C4.  For a URL that parses, `isDisallowed` reports disallowed iff some
wildcard-agent disallow prefix matches the URL's path and no wildcard-agent
allow prefix matches it (allow takes precedence); a URL that fails to parse
is allowed (fail open); and under `Disallow: /private` with no matching
allow, the path `/private/page` is rejected while `/public/page` is
accepted. -/
theorem isDisallowed_spec (pu : Str → Option UrlObj) (rules : RobotsRules)
    (url : Str) :
    (∀ o, pu url = some o →
      (isDisallowed pu url rules = true ↔
        ((∃ r ∈ agentRules rules.disallow (toL "*"),
            strStartsWith o.pathname r = true)
          ∧ ¬ ∃ r ∈ agentRules rules.allow (toL "*"),
              strStartsWith o.pathname r = true)))
    ∧ (pu url = none → isDisallowed pu url rules = false)
    ∧ isDisallowed sitePu (toL "https://site/private/page") privateRules = true
    ∧ isDisallowed sitePu (toL "https://site/public/page") privateRules = false := by
  refine ⟨?_, ?_, by decide, by decide⟩
  · intro o ho
    simp only [isDisallowed, ho]
    by_cases ha : (agentRules rules.allow (toL "*")).any
        (fun rule => strStartsWith o.pathname rule) = true
    · simp only [ha, if_true]
      simp only [List.any_eq_true] at ha
      constructor
      · intro h; cases h
      · rintro ⟨-, hno⟩; exact absurd ha hno
    · simp only [ha, if_false]
      simp only [List.any_eq_true] at ha
      by_cases hd : (agentRules rules.disallow (toL "*")).any
          (fun rule => strStartsWith o.pathname rule) = true
      · simp only [hd, if_true]
        simp only [List.any_eq_true] at hd
        simpa [hd] using ha
      · simp only [hd, if_false]
        simp only [List.any_eq_true] at hd
        constructor
        · intro h; cases h
        · rintro ⟨hsome, -⟩; exact absurd hsome hd
  · intro hnone; simp [isDisallowed, hnone]

/-- C4 witness: the `/private/page` rejection, read back through the iff. -/
theorem isDisallowed_spec_witness :
    (∃ r ∈ agentRules privateRules.disallow (toL "*"),
        strStartsWith (toL "/private/page") r = true)
      ∧ ¬ ∃ r ∈ agentRules privateRules.allow (toL "*"),
          strStartsWith (toL "/private/page") r = true :=
  ((isDisallowed_spec sitePu privateRules (toL "https://site/private/page")).1
      ⟨toL "https:", toL "site", toL "/private/page"⟩ (by decide)).mp (by decide)

/-- C10.  A `Disallow:` directive with an empty path under the wildcard agent
is recorded by the parser as the empty prefix, and since every path extends
the empty prefix, every URL that parses is then disallowed unless some
wildcard allow prefix matches it: one empty `Disallow` line blocks the whole
site. -/
theorem empty_disallow_blocks_site (rules : RobotsRules)
    (pu : Str → Option UrlObj) (url : Str) :
    agentRules emptyDisallowRules.disallow (toL "*") = [[]]
    ∧ ([] ∈ agentRules rules.disallow (toL "*") →
        ∀ o, pu url = some o →
          (∀ r ∈ agentRules rules.allow (toL "*"),
              strStartsWith o.pathname r = false) →
          isDisallowed pu url rules = true) := by
  refine ⟨by decide, ?_⟩
  intro hmem o ho hallow
  simp only [isDisallowed, ho]
  have ha : (agentRules rules.allow (toL "*")).any
      (fun rule => strStartsWith o.pathname rule) = false := by
    simp only [List.any_eq_false]
    intro r hr
    simp [hallow r hr]
  have hd : (agentRules rules.disallow (toL "*")).any
      (fun rule => strStartsWith o.pathname rule) = true := by
    refine List.any_eq_true.mpr ⟨[], hmem, ?_⟩
    cases o.pathname <;> rfl
  simp [ha, hd]

/-- C10 witness: with the rules parsed from `"User-agent: *\nDisallow:"`,
the `/private/page` URL is disallowed. -/
theorem empty_disallow_blocks_site_witness :
    isDisallowed sitePu (toL "https://site/private/page") emptyDisallowRules = true :=
  (empty_disallow_blocks_site emptyDisallowRules sitePu
      (toL "https://site/private/page")).2 (by decide)
    ⟨toL "https:", toL "site", toL "/private/page"⟩ (by decide) (by decide)

/-- C8.  A per-chunk generation failure never aborts the pipeline: the
processed list keeps one entry per chunk, entry `i` being the generated text
on success and the identifiable inline placeholder (with the 1-based chunk
number) on failure; and on the three-chunk instance whose second generation
call fails, the pipeline returns a final result containing the valid outputs
for chunks 1 and 3 and the placeholder for chunk 2. -/
theorem chunk_failure_isolated (gen : Str → Except Str Str) (task : Str) :
    (∀ (chunks : List Str) (i0 : Nat),
        (processChunksGo gen task i0 chunks).length = chunks.length)
    ∧ (∀ (chunks : List Str) (i0 i : Nat) (c : Str), chunks[i]? = some c →
        (processChunksGo gen task i0 chunks)[i]? = some
          (match gen (mkPrompt task c) with
           | .ok t => t
           | .error msg => chunkErrorPlaceholder (i0 + i + 1) msg))
    ∧ synthesizeChunks genFailB taskEcho [chunkA, chunkB, chunkC]
        = combiningPrompt (mkPrompt taskEcho chunkA ++ toL "\n\n"
            ++ chunkErrorPlaceholder 2 (toL "boom") ++ toL "\n\n"
            ++ mkPrompt taskEcho chunkC)
    ∧ chunkErrorPlaceholder 2 (toL "boom")
        <:+: synthesizeChunks genFailB taskEcho [chunkA, chunkB, chunkC]
    ∧ mkPrompt taskEcho chunkA
        <:+: synthesizeChunks genFailB taskEcho [chunkA, chunkB, chunkC]
    ∧ mkPrompt taskEcho chunkC
        <:+: synthesizeChunks genFailB taskEcho [chunkA, chunkB, chunkC] := by
  refine ⟨?_, ?_, by decide, by decide, by decide, by decide⟩
  · intro chunks
    induction chunks with
    | nil => intro i0; rfl
    | cons c cs ih => intro i0; simp [processChunksGo, ih]
  · intro chunks
    induction chunks with
    | nil => intro i0 i c h; simp at h
    | cons d cs ih =>
      intro i0 i c h
      cases i with
      | zero =>
        simp at h
        subst h
        simp [processChunksGo]
      | succ n =>
        simp at h
        have := ih (i0 + 1) n c h
        simpa [processChunksGo, Nat.add_assoc, Nat.add_comm 1 n] using this

/-- C8 witness: position 2 of the three-chunk instance holds the placeholder. -/
theorem chunk_failure_isolated_witness :
    (processChunksGo genFailB taskEcho 0 [chunkA, chunkB, chunkC])[1]? = some
      (match genFailB (mkPrompt taskEcho chunkB) with
       | .ok t => t
       | .error msg => chunkErrorPlaceholder (0 + 1 + 1) msg) :=
  (chunk_failure_isolated genFailB taskEcho).2.1 [chunkA, chunkB, chunkC] 0 1
    chunkB (by decide)

theorem nonWS_append (a b : Str) : nonWS (a ++ b) = nonWS a ++ nonWS b :=
  List.filter_append ..

theorem nonWS_all_ws (s : Str) (h : s.all isWS = true) : nonWS s = [] := by
  simp only [nonWS, List.filter_eq_nil_iff]
  intro c hc
  simp only [List.all_eq_true] at h
  simp [h c hc]

theorem nonWS_drop_of_ws_take (n : Nat) (s : Str)
    (h : (s.take n).all isWS = true) : nonWS s = nonWS (s.drop n) := by
  conv_lhs => rw [← List.take_append_drop n s]
  rw [nonWS_append, nonWS_all_ws _ h, List.nil_append]

theorem wsRun_take_all (s : Str) : (s.take (wsRunLen s)).all isWS = true := by
  induction s with
  | nil => rfl
  | cons c r ih =>
    by_cases h : isWS c = true
    · simpa [wsRunLen, h, List.all_cons] using ih
    · simp [wsRunLen, h]

theorem lastIdxNl_lt (s : Str) (j : Nat) (h : lastIdxNl s = some j) :
    j < s.length := by
  induction s generalizing j with
  | nil => simp [lastIdxNl] at h
  | cons c r ih =>
    unfold lastIdxNl at h
    cases hr : lastIdxNl r with
    | some j0 =>
      rw [hr] at h
      cases h
      exact Nat.succ_lt_succ (ih j0 hr)
    | none =>
      rw [hr] at h
      by_cases hc : c = '\n'
      · simp only [hc, if_pos rfl] at h
        cases h
        simp
      · simp [hc] at h

theorem paraSep_ws (prev : Option Char) (s : Str) (n : Nat)
    (h : paraSep prev s = some n) : (s.take n).all isWS = true := by
  cases s with
  | nil => simp [paraSep] at h
  | cons c rest =>
    by_cases hc : c = '\n'
    · subst hc
      simp only [paraSep, if_pos rfl] at h
      cases hj : lastIdxNl (rest.take (wsRunLen rest)) with
      | none => rw [hj] at h; cases h
      | some j =>
        rw [hj] at h
        cases h
        have hjlt : j < (rest.take (wsRunLen rest)).length := lastIdxNl_lt _ _ hj
        have hjle : j + 1 ≤ wsRunLen rest := by
          have := List.length_take_le (wsRunLen rest) rest
          omega
        have htake : rest.take (j + 1) = (rest.take (wsRunLen rest)).take (j + 1) := by
          rw [List.take_take]
          congr 1
          omega
        have hallrun := wsRun_take_all rest
        have hall : (rest.take (j + 1)).all isWS = true := by
          rw [htake]
          simp only [List.all_eq_true] at hallrun ⊢
          intro x hx
          exact hallrun x (List.mem_of_mem_take hx)
        show ((('\n' : Char) :: rest).take (j + 2)).all isWS = true
        have hnl : isWS '\n' = true := by decide
        simpa [List.all_cons, hnl] using hall
    · simp [paraSep, hc] at h

theorem sentSep_ws (prev : Option Char) (s : Str) (n : Nat)
    (h : sentSep prev s = some n) : (s.take n).all isWS = true := by
  cases prev with
  | none => simp [sentSep] at h
  | some p =>
    cases s with
    | nil => simp [sentSep] at h
    | cons c rest =>
      simp only [sentSep] at h
      by_cases hcond : ((p = '.' || p = '!' || p = '?') && isWS c) = true
      · rw [if_pos hcond] at h
        cases h
        have hwc : isWS c = true := by
          simp only [Bool.and_eq_true] at hcond
          exact hcond.2
        show ((c :: rest).take (wsRunLen rest + 1)).all isWS = true
        simpa [List.all_cons, hwc] using wsRun_take_all rest
      · rw [if_neg hcond] at h
        cases h

theorem splitTextGo_content (sep : Option Char → Str → Option Nat)
    (hsep : ∀ prev s n, sep prev s = some n → (s.take n).all isWS = true) :
    ∀ (fuel : Nat) (prev : Option Char) (acc s : Str),
      nonWS (splitTextGo sep fuel prev acc s).flatten
        = nonWS acc.reverse ++ nonWS s := by
  intro fuel
  induction fuel with
  | zero => intro prev acc s; simp [splitTextGo, nonWS_append]
  | succ n ih =>
    intro prev acc s
    cases s with
    | nil => simp [splitTextGo, nonWS]
    | cons c rest =>
      simp only [splitTextGo]
      cases hm : sep prev (c :: rest) with
      | none =>
        rw [ih]
        simp [nonWS_append, nonWS, List.filter_cons]
        split <;> simp
      | some k =>
        cases k with
        | zero =>
          rw [ih]
          simp [nonWS_append, nonWS, List.filter_cons]
          split <;> simp
        | succ n0 =>
          simp only [List.flatten_cons]
          rw [nonWS_append, ih]
          have hws := hsep prev (c :: rest) (n0 + 1) hm
          rw [← nonWS_drop_of_ws_take (n0 + 1) (c :: rest) hws]
          simp [nonWS]

theorem jsSplit_content (sep : Option Char → Str → Option Nat)
    (hsep : ∀ prev s n, sep prev s = some n → (s.take n).all isWS = true)
    (s : Str) : nonWS (jsSplit sep s).flatten = nonWS s := by
  unfold jsSplit
  rw [splitTextGo_content sep hsep]
  simp [nonWS]

theorem sliceLoop_join (m : Nat) :
    ∀ (fuel : Nat) (s : Str), (sliceLoop m fuel s).flatten = s := by
  intro fuel
  induction fuel with
  | zero => intro s; cases s <;> simp [sliceLoop]
  | succ n ih =>
    intro s
    cases s with
    | nil => simp [sliceLoop]
    | cons c r =>
      simp only [sliceLoop, List.flatten_cons, ih]
      exact List.take_append_drop m (c :: r)

theorem nonWS_nil : nonWS [] = [] := rfl

theorem nonWS_space : nonWS [' '] = [] := by decide

theorem nonWS_space_cons (s : Str) : nonWS (' ' :: s) = nonWS s := by
  simp [nonWS, List.filter_cons]
  decide

theorem nonWS_nl_cons (s : Str) : nonWS ('\n' :: s) = nonWS s := by
  simp [nonWS, List.filter_cons]
  decide

theorem nonWS_nl2 : nonWS ['\n', '\n'] = [] := by decide

theorem sentLoop_content (m : Nat) :
    ∀ (ss chunks : List Str) (sc : Str),
      nonWS (sentLoop m ss chunks sc).1.flatten ++ nonWS (sentLoop m ss chunks sc).2
        = nonWS chunks.flatten ++ nonWS sc ++ nonWS ss.flatten := by
  intro ss
  induction ss with
  | nil => intro chunks sc; simp [sentLoop, nonWS_nil]
  | cons s ss ih =>
    intro chunks sc
    simp only [sentLoop]
    by_cases h1 : m < sc.length + s.length
    · simp only [h1, if_true]
      by_cases h3 : 0 < sc.length
      · simp only [h3, if_true]
        by_cases h2 : m < s.length
        · simp only [h2, if_true]
          rw [ih]
          simp [List.flatten_append, List.flatten_cons, nonWS_append, nonWS_nil,
            sliceLoop_join, List.append_assoc]
        · simp only [h2, if_false]
          rw [ih]
          simp [List.flatten_append, List.flatten_cons, nonWS_append, nonWS_nil,
            List.append_assoc]
      · obtain rfl : sc = [] := by
          rcases sc with _ | ⟨a, t⟩
          · rfl
          · simp at h3
        simp only [h3, if_false]
        by_cases h2 : m < s.length
        · simp only [h2, if_true]
          rw [ih]
          simp [List.flatten_append, List.flatten_cons, nonWS_append, nonWS_nil,
            sliceLoop_join, List.append_assoc]
        · simp only [h2, if_false]
          rw [ih]
          simp [List.flatten_cons, nonWS_append, nonWS_nil, List.append_assoc]
    · simp only [h1, if_false]
      rw [ih]
      by_cases h3 : 0 < sc.length
      · simp [h3, List.flatten_cons, nonWS_append, nonWS_space_cons,
          List.append_assoc]
      · simp [h3, List.flatten_cons, nonWS_append, nonWS_nil, List.append_assoc]

theorem processBigParagraph_content (m : Nat) (chunks : List Str) (p : Str) :
    nonWS (processBigParagraph m chunks p).flatten
      = nonWS chunks.flatten ++ nonWS p := by
  unfold processBigParagraph
  have hsent := sentLoop_content m (jsSplit sentSep p) chunks []
  rw [jsSplit_content sentSep sentSep_ws p] at hsent
  by_cases hf : 0 < (sentLoop m (jsSplit sentSep p) chunks []).2.length
  · simp only [hf, if_true]
    rw [List.flatten_append]
    simp only [List.flatten_cons, List.flatten_nil, List.append_nil, nonWS_append]
    simpa [nonWS_nil] using hsent
  · simp only [hf, if_false]
    obtain h2 : (sentLoop m (jsSplit sentSep p) chunks []).2 = [] := by
      rcases hs : (sentLoop m (jsSplit sentSep p) chunks []).2 with _ | ⟨a, t⟩
      · rfl
      · rw [hs] at hf; simp at hf
    rw [h2] at hsent
    simpa [nonWS_nil] using hsent

theorem paraLoop_content (m : Nat) :
    ∀ (ps chunks : List Str) (cur : Str),
      nonWS (paraLoop m ps chunks cur).1.flatten ++ nonWS (paraLoop m ps chunks cur).2
        = nonWS chunks.flatten ++ nonWS cur ++ nonWS ps.flatten := by
  intro ps
  induction ps with
  | nil => intro chunks cur; simp [paraLoop, nonWS_nil]
  | cons p ps ih =>
    intro chunks cur
    simp only [paraLoop]
    by_cases h1 : m < cur.length + p.length + 2
    · simp only [h1, if_true]
      by_cases h3 : 0 < cur.length
      · simp only [h3, if_true]
        by_cases h2 : m < p.length
        · simp only [h2, if_true]
          rw [ih, processBigParagraph_content]
          simp [List.flatten_append, List.flatten_cons, nonWS_append, nonWS_nil,
            List.append_assoc]
        · simp only [h2, if_false]
          rw [ih]
          simp [List.flatten_append, List.flatten_cons, nonWS_append, nonWS_nil,
            List.append_assoc]
      · obtain rfl : cur = [] := by
          rcases cur with _ | ⟨a, t⟩
          · rfl
          · simp at h3
        simp only [h3, if_false]
        by_cases h2 : m < p.length
        · simp only [h2, if_true]
          rw [ih, processBigParagraph_content]
          simp [List.flatten_cons, nonWS_append, nonWS_nil, List.append_assoc]
        · simp only [h2, if_false]
          rw [ih]
          simp [List.flatten_cons, nonWS_append, nonWS_nil, List.append_assoc]
    · simp only [h1, if_false]
      rw [ih]
      by_cases h3 : 0 < cur.length
      · simp [h3, List.flatten_cons, nonWS_append, nonWS_nl_cons,
          List.append_assoc]
      · simp [h3, List.flatten_cons, nonWS_append, nonWS_nil, List.append_assoc]

theorem createChunks_content (T : Str) (M : Nat) :
    nonWS (createChunks T M).flatten = nonWS T := by
  by_cases h : T.length ≤ M
  · simp [createChunks, h]
  · simp only [createChunks, h, if_false]
    have hp := paraLoop_content M (jsSplit paraSep T) [] []
    rw [jsSplit_content paraSep paraSep_ws T] at hp
    by_cases hf : 0 < (paraLoop M (jsSplit paraSep T) [] []).2.length
    · simp only [hf, if_true]
      rw [List.flatten_append]
      simp only [List.flatten_cons, List.flatten_nil, List.append_nil, nonWS_append]
      simpa [nonWS_nil] using hp
    · simp only [hf, if_false]
      obtain h2 : (paraLoop M (jsSplit paraSep T) [] []).2 = [] := by
        rcases hs : (paraLoop M (jsSplit paraSep T) [] []).2 with _ | ⟨a, t⟩
        · rfl
        · rw [hs] at hf; simp at hf
      rw [h2] at hp
      simpa [nonWS_nil] using hp

/-- C3.  For every text and positive chunk-size ceiling, concatenating the
chunks returned by `createChunks` preserves exactly the non-whitespace
characters of the text, in order (the separators dropped by the paragraph and
sentence splits, and the blank line and space the algorithm reintroduces, are
all whitespace) — no non-whitespace character is lost or duplicated; and a
text no longer than the ceiling is returned unchanged as the one-element
sequence, including the empty text. -/
theorem createChunks_lossless (T : Str) (M : Nat) (_hM : 0 < M) :
    nonWS (createChunks T M).flatten = nonWS T
    ∧ (T.length ≤ M → createChunks T M = [T]) :=
  ⟨createChunks_content T M, fun h => by simp [createChunks, h]⟩

/-- C3 witness: the empty text at ceiling 1 comes back as the single empty
chunk, and a two-character text at ceiling 2 comes back unchanged. -/
theorem createChunks_lossless_witness :
    createChunks [] 1 = [[]] ∧ createChunks (toL "hi") 2 = [toL "hi"] :=
  ⟨(createChunks_lossless [] 1 (by decide)).2 (by decide),
   (createChunks_lossless (toL "hi") 2 (by decide)).2 (by decide)⟩
